import Mathlib

set_option maxHeartbeats 1000000

namespace Samply

/-- Result of running code that can hit a Rust panic (an `unwrap` of `None`).
`panic` carries no value; `ok` is normal completion. -/
inductive PRes (α : Type) where
  | panic : PRes α
  | ok : α → PRes α
deriving DecidableEq, Repr

/-- The single representative of a pdb read or parse error (`pdb::Error`); the code of
`addr2line.rs` never inspects the error payload, it only propagates it with `?`. -/
inductive PdbError where
  | malformed : PdbError
deriving DecidableEq, Repr

/-- A resolved source location (`Location` in `src/lib/src/windows/addr2line.rs`);
the borrowed `Cow` string is modelled as a plain `String`. -/
structure Location where
  file : Option String
  line : Option Nat
  column : Option Nat
deriving DecidableEq, Repr

/-- A resolved stack entry (`Frame` in `src/lib/src/windows/addr2line.rs`). -/
structure Frame where
  function : Option String
  location : Option Location
deriving DecidableEq, Repr

/-- One pdb line record (`pdb::LineInfo`) as used by `addr2line.rs`: an internal
section offset (an abstract token, here a `Nat`), an optional byte length, a file
index, a start line and an optional start column. -/
structure LineInfo where
  offset : Nat
  length : Option Nat
  fileIndex : Nat
  lineStart : Nat
  columnStart : Option Nat
deriving DecidableEq, Repr

/-- A procedure symbol (`pdb::ProcedureSymbol`) as used by `addr2line.rs`: a name, a
type index for signature formatting, an internal section offset and a byte length. -/
structure ProcedureSymbol where
  name : String
  typeIndex : Nat
  offset : Nat
  len : Nat
deriving DecidableEq, Repr

/-- An inline site symbol (`pdb::InlineSiteSymbol`) as used by `addr2line.rs`: the id
of the inlinee it refers to plus an opaque payload standing for its binary
annotations (which feed the line records of the site). -/
structure InlineSiteSymbol where
  inlinee : Nat
  annot : Nat
deriving DecidableEq, Repr

/-- One parsed symbol of the module symbol stream. The code of `addr2line.rs` treats
a parse failure exactly like a symbol kind it does not care about (both fall into
the catch-all arm), so both are folded into `other`. -/
inductive SymbolData where
  | procedure : ProcedureSymbol → SymbolData
  | inlineSite : InlineSiteSymbol → SymbolData
  | other : SymbolData
deriving DecidableEq, Repr

/-- A module line program (`pdb::LineProgram`) as used by `addr2line.rs`:
`linesAtOffset` is `lines_at_offset` (the unsized line records of the procedure at a
given offset) and `fileName` is the composition of `get_file_info` with
`to_string_lossy` over the string table, with errors already folded to `none` (the
code applies `.ok()` to that composition). -/
structure LineProgram where
  linesAtOffset : Nat → List LineInfo
  fileName : Nat → Option String

/-- An inlinee record (`pdb::Inlinee`): `lines` is `Inlinee::lines`, producing the
sized line records of one inline site from the parent procedure offset and the
site symbol. -/
structure Inlinee where
  lines : Nat → InlineSiteSymbol → List LineInfo

/-- Everything `addr2line.rs` reads from one module: its symbol stream (in stream
order, symbol indices being positions), its line program, and its inlinees keyed by
id (the `BTreeMap` built in `find_frames`). -/
structure ModuleDebugInfo where
  symbols : List SymbolData
  lineProgram : LineProgram
  inlinees : Nat → Option Inlinee

/-- The embedding of `Addr2LineContext`: `toRva` is the address map
(`PdbInternalSectionOffset::to_rva`, partial), `writeFunction` and `writeId` are the
two `TypeFormatter` operations (the code ignores their error and keeps whatever was
written into the buffer, so they are total string producers), `modules` is the
module stream of `dbi.modules()` already filtered through `pdb.module_info`, and
`modulesErr` records whether pulling the next module after the listed ones fails
with a read error (the `modules.next()?` in `find_frames`). -/
structure Addr2LineContext where
  toRva : Nat → Option Nat
  writeFunction : String → Nat → String
  writeId : Nat → String
  modules : List ModuleDebugInfo
  modulesErr : Bool

/-- The embedding of `find_line_info_containing_address_no_size`
(addr2line.rs lines 209 to 230). The Rust zips the start RVA stream with its own
tail chained with `outer_end_rva`; pulling item i therefore forces the RVA
translation (and its `unwrap`) of record i and of record i+1 before the range test
runs; the last record is paired with `outer_end_rva` and forces no extra
translation. A failed translation is a panic. -/
def find_line_info_containing_address_no_size (rva : Nat → Option Nat)
    (address outerEndRva : Nat) : List LineInfo → PRes (Option LineInfo)
  | [] => .ok none
  | [li] =>
    match rva li.offset with
    | none => .panic
    | some s =>
      if s ≤ address ∧ address < outerEndRva then .ok (some li) else .ok none
  | li :: li2 :: rest =>
    match rva li.offset with
    | none => .panic
    | some s =>
      match rva li2.offset with
      | none => .panic
      | some e =>
        if s ≤ address ∧ address < e then .ok (some li)
        else find_line_info_containing_address_no_size rva address outerEndRva (li2 :: rest)

/-- The embedding of `find_line_info_containing_address_with_size`
(addr2line.rs lines 232 to 249). A record without a length is skipped before the
offset is translated; for a record with a length the translation is unwrapped
(panic on failure) and the half-open range test runs. -/
def find_line_info_containing_address_with_size (rva : Nat → Option Nat)
    (address : Nat) : List LineInfo → PRes (Option LineInfo)
  | [] => .ok none
  | li :: rest =>
    match li.length with
    | none => find_line_info_containing_address_with_size rva address rest
    | some l =>
      match rva li.offset with
      | none => .panic
      | some s =>
        if s ≤ address ∧ address < s + l then .ok (some li)
        else find_line_info_containing_address_with_size rva address rest

/-- The implicit-end search as the SPEC words it (spec section 4.1): form pairs
`(start_i, end_i)` with `end_i` the next start or the fallback, and return the
first record whose half-open interval contains the address. Stated over the start
RVAs directly; compared against the code embedding in the C4 theorem. -/
def specImplicitEndSearch (starts : List Nat) (outerEndRva : Nat)
    (records : List LineInfo) (address : Nat) : Option LineInfo :=
  let ends := starts.drop 1 ++ [outerEndRva]
  (((starts.zip ends).zip records).find?
    (fun x => decide (x.1.1 ≤ address ∧ address < x.1.2))).map (·.2)

/-- The embedding of `line_info_to_location` (addr2line.rs lines 251 to 269). -/
def line_info_to_location (lp : LineProgram) (li : LineInfo) : Location :=
  { file := lp.fileName li.fileIndex
    line := some li.lineStart
    column := li.columnStart }

/-- The embedding of `frames_for_address_for_inline_symbol`
(addr2line.rs lines 175 to 207): look the inlinee up (absent means no frame), run
the sized line search over its line records (no covering record means no frame),
and otherwise build a frame whose function is the formatted inlinee id and whose
location is always present. -/
def frames_for_address_for_inline_symbol (ctx : Addr2LineContext)
    (m : ModuleDebugInfo) (site : InlineSiteSymbol) (address : Nat)
    (procOffset : Nat) : PRes (Option Frame) :=
  match m.inlinees site.inlinee with
  | none => .ok none
  | some inlinee =>
    match find_line_info_containing_address_with_size ctx.toRva address
        (inlinee.lines procOffset site) with
    | .panic => .panic
    | .ok none => .ok none
    | .ok (some li) =>
      .ok (some { function := some (ctx.writeId site.inlinee)
                  location := some (line_info_to_location m.lineProgram li) })

/-- The walk over the symbols after the matched procedure
(addr2line.rs lines 143 to 165): stop at the next procedure symbol or at the end of
the stream, collect a frame per covering inline site, ignore everything else
(including symbols that fail to parse). The collected list is in stream order,
outermost first. -/
def collectInlineFrames (ctx : Addr2LineContext) (m : ModuleDebugInfo)
    (address : Nat) (procOffset : Nat) : List SymbolData → PRes (List Frame)
  | [] => .ok []
  | .procedure _ :: _ => .ok []
  | .inlineSite site :: rest =>
    match frames_for_address_for_inline_symbol ctx m site address procOffset with
    | .panic => .panic
    | .ok none => collectInlineFrames ctx m address procOffset rest
    | .ok (some f) =>
      match collectInlineFrames ctx m address procOffset rest with
      | .panic => .panic
      | .ok fs => .ok (f :: fs)
  | .other :: rest => collectInlineFrames ctx m address procOffset rest

/-- The embedding of `find_frames_from_procedure` (addr2line.rs lines 96 to 173).
The single-key map `frames_per_address` is modelled as the list it carries: the
outer frame (function always formatted, location filled from the unsized line
search when one record covers the address), then the inline frames in stream
order, and the whole list reversed at the end. -/
def find_frames_from_procedure (ctx : Addr2LineContext) (m : ModuleDebugInfo)
    (address : Nat) (symIndex : Nat) (p : ProcedureSymbol) (rangeEnd : Nat) :
    PRes (List Frame) :=
  match find_line_info_containing_address_no_size ctx.toRva address rangeEnd
      (m.lineProgram.linesAtOffset p.offset) with
  | .panic => .panic
  | .ok oli =>
    let outer : Frame :=
      { function := some (ctx.writeFunction p.name p.typeIndex)
        location := oli.map (line_info_to_location m.lineProgram) }
    match collectInlineFrames ctx m address p.offset (m.symbols.drop (symIndex + 1)) with
    | .panic => .panic
    | .ok inlines => .ok ((outer :: inlines).reverse)

/-- The `find_map` over one module symbol stream (addr2line.rs lines 57 to 71):
the first procedure symbol whose offset translates and whose half-open RVA range
contains the address; a procedure whose offset fails to translate is skipped.
Returns the symbol index (its position), the procedure, and its RVA range. -/
def findProcInModuleAux (ctx : Addr2LineContext) (address : Nat) :
    Nat → List SymbolData → Option (Nat × ProcedureSymbol × Nat × Nat)
  | _, [] => none
  | i, .procedure p :: rest =>
    match ctx.toRva p.offset with
    | none => findProcInModuleAux ctx address (i + 1) rest
    | some s =>
      if s ≤ address ∧ address < s + p.len then some (i, p, s, s + p.len)
      else findProcInModuleAux ctx address (i + 1) rest
  | i, _ :: rest => findProcInModuleAux ctx address (i + 1) rest

/-- The module loop of `find_frames` (addr2line.rs lines 55 to 92) over an explicit
module list. If no module matches and the module stream then fails to read, the
read error propagates (the `modules.next()?`); otherwise the empty list is
returned. -/
def find_frames_in_modules (ctx : Addr2LineContext) (address : Nat) :
    List ModuleDebugInfo → PRes (Except PdbError (List Frame))
  | [] => .ok (if ctx.modulesErr then Except.error PdbError.malformed else Except.ok [])
  | m :: rest =>
    match findProcInModuleAux ctx address 0 m.symbols with
    | none => find_frames_in_modules ctx address rest
    | some (i, p, _s, e) =>
      match find_frames_from_procedure ctx m address i p e with
      | .panic => .panic
      | .ok frames => .ok (Except.ok frames)

/-- The embedding of `find_frames` (addr2line.rs lines 43 to 93). -/
def find_frames (ctx : Addr2LineContext) (address : Nat) :
    PRes (Except PdbError (List Frame)) :=
  find_frames_in_modules ctx address ctx.modules

/-- Whether one symbol is a procedure whose translated RVA range contains the
address (the match condition of the `find_map` in `find_frames`). -/
def matchesProcB (ctx : Addr2LineContext) (address : Nat) : SymbolData → Bool
  | .procedure p =>
    match ctx.toRva p.offset with
    | none => false
    | some s => decide (s ≤ address ∧ address < s + p.len)
  | _ => false

/-- Whether some enumerated module contains a procedure covering the address. -/
def coveredB (ctx : Addr2LineContext) (address : Nat) : Bool :=
  ctx.modules.any (fun m => m.symbols.any (matchesProcB ctx address))

/-- Modelled from the spec: the kernel error taxonomy used by the sampling engine
(`kernel_error.rs` is not under src). The spec names the invalid argument code,
the invalid destination code of the message channel, and the translated process
terminated code; every other platform error is an opaque code. -/
inductive KernelError where
  | invalidArgument : KernelError
  | machSendInvalidDest : KernelError
  | terminated : KernelError
  | other : Nat → KernelError
deriving DecidableEq, Repr

/-- Modelled from the spec: a loaded module record (`DyldInfo` of `proc_maps.rs`,
not under src) with the fields `task_profiler.rs` reads: path, optional UUID,
base address, vmsize, optional architecture tag, and the is-executable flag. -/
structure DyldInfo where
  file : String
  uuid : Option String
  address : Nat
  vmsize : Nat
  arch : Option String
  isExecutable : Bool
deriving DecidableEq, Repr

/-- A module delta as reported by the module tracker. -/
inductive Modification where
  | added : DyldInfo → Modification
  | removed : DyldInfo → Modification
deriving DecidableEq, Repr

/-- Modelled from the spec: a thread sampler (`ThreadProfiler` of
`thread_profiler.rs`, not under src) is opaque to `task_profiler.rs`; the model
keeps the handle it was created for, the main flag, and the death timestamp set
by `notify_dead`. Its internal sample buffer is outside the core. -/
structure ThreadProfiler where
  threadAct : Nat
  isMain : Bool
  deadAt : Option Nat
deriving DecidableEq, Repr

/-- `ThreadProfiler::notify_dead`, modelled from the spec: record the death time. -/
def notifyDeadThread (t : ThreadProfiler) (now : Nat) : ThreadProfiler :=
  { t with deadAt := some now }

/-- The embedding of the `TaskProfiler` state (task_profiler.rs lines 20 to 33).
The live thread map is an association list with unique keys; timestamps are
abstract `Nat` instants. -/
structure TaskProfiler where
  task : Nat
  pid : Nat
  interval : Nat
  startTime : Nat
  endTime : Option Nat
  liveThreads : List (Nat × ThreadProfiler)
  deadThreads : List ThreadProfiler
  libs : List DyldInfo
  commandline : Option (List String)
  executableLib : Option DyldInfo
  commandName : String
deriving DecidableEq, Repr

/-- Modelled from the spec: one tick worth of collaborator behaviour. `changes` is
the module tracker delta result, `threadList` the platform thread enumeration
(`get_thread_list`), `newThread` the `ThreadProfiler::new` outcome per handle
(`ok none` means the thread is not profileable), and `threadSample` the liveness
result of `ThreadProfiler::sample` per handle for this tick. -/
structure SampleEnv where
  changes : Except Unit (List Modification)
  threadList : Except KernelError (List Nat)
  newThread : Nat → Except KernelError (Option ThreadProfiler)
  threadSample : Nat → Except KernelError Bool

/-- The module tracker delta after the error coercion of `sample_impl`
(`check_for_changes().unwrap_or_else(|_| Vec::new())`). -/
def changesOf (env : SampleEnv) : List Modification :=
  match env.changes with
  | .error _ => []
  | .ok cs => cs

/-- The added module of a delta, when it is an addition. -/
def Modification.addedLib : Modification → Option DyldInfo
  | .added l => some l
  | .removed _ => none

/-- Application of one module delta (task_profiler.rs lines 103 to 116): an added
module is recorded as the executable module when none is recorded yet and its
flag is set, then appended to `libs`; a removal is ignored. -/
def applyChange (s : TaskProfiler) : Modification → TaskProfiler
  | .added lib =>
    let s1 :=
      if s.executableLib.isNone && lib.isExecutable then
        { s with executableLib := some lib }
      else s
    { s1 with libs := s1.libs ++ [lib] }
  | .removed _ => s

/-- The fold of `sample_impl` over the whole delta list. -/
def applyModuleChanges (s : TaskProfiler) (cs : List Modification) : TaskProfiler :=
  cs.foldl applyChange s

/-- The translation applied to a thread enumeration failure
(task_profiler.rs lines 119 to 122): invalid argument becomes terminated. -/
def translateEnumErr : KernelError → KernelError
  | .invalidArgument => .terminated
  | e => e

/-- The per-handle loop of `sample_impl` (task_profiler.rs lines 126 to 149),
carrying the mutated state and the set of handles found alive this tick. An
occupied entry reuses the existing sampler; a vacant entry constructs one (a
constructor error propagates and leaves the state as mutated so far; a
non-profileable thread is skipped); the sample result decides membership in the
alive set, and a sample error propagates likewise. -/
def threadLoop (env : SampleEnv) : List Nat → TaskProfiler → List Nat →
    TaskProfiler × Except KernelError (List Nat)
  | [], s, nowLive => (s, .ok nowLive)
  | act :: rest, s, nowLive =>
    match s.liveThreads.lookup act with
    | some _ =>
      match env.threadSample act with
      | .error e => (s, .error e)
      | .ok alive =>
        threadLoop env rest s (if alive then nowLive ++ [act] else nowLive)
    | none =>
      match env.newThread act with
      | .error e => (s, .error e)
      | .ok none => threadLoop env rest s nowLive
      | .ok (some t) =>
        let s1 := { s with liveThreads := s.liveThreads ++ [(act, t)] }
        match env.threadSample act with
        | .error e => (s1, .error e)
        | .ok alive =>
          threadLoop env rest s1 (if alive then nowLive ++ [act] else nowLive)

/-- The garbage collection of `sample_impl` (task_profiler.rs lines 150 to 155):
every previously live handle absent from the alive set is removed from the live
map, notified dead at `now`, and appended to the dead list. The `none` arm of the
lookup is unreachable when called from `sample_impl` (the handle was a key of the
live map and the loop never removes keys), mirroring the `remove(..).unwrap()`. -/
def moveDead (now : Nat) : TaskProfiler → List Nat → TaskProfiler
  | s, [] => s
  | s, act :: rest =>
    match s.liveThreads.lookup act with
    | none => moveDead now s rest
    | some t =>
      moveDead now
        { s with
          liveThreads := s.liveThreads.filter (fun p => p.1 ≠ act)
          deadThreads := s.deadThreads ++ [notifyDeadThread t now] }
        rest

/-- The embedding of `sample_impl` (task_profiler.rs lines 97 to 157). Every
mutation made before an early error return stays in the returned state. -/
def sample_impl (env : SampleEnv) (s : TaskProfiler) (now : Nat) :
    TaskProfiler × Except KernelError Unit :=
  let s1 := applyModuleChanges s (changesOf env)
  match env.threadList with
  | .error e => (s1, .error (translateEnumErr e))
  | .ok acts =>
    let prevLive := s1.liveThreads.map (·.1)
    match threadLoop env acts s1 [] with
    | (s2, .error e) => (s2, .error e)
    | (s2, .ok nowLive) =>
      let deadActs := prevLive.filter (fun a => a ∉ nowLive)
      (moveDead now s2 deadActs, .ok ())

/-- The embedding of `sample` (task_profiler.rs lines 87 to 95): success maps to
true, an invalid destination or terminated error maps to false, and every other
error propagates. -/
def sample (env : SampleEnv) (s : TaskProfiler) (now : Nat) :
    TaskProfiler × Except KernelError Bool :=
  match sample_impl env s now with
  | (s2, .ok _) => (s2, .ok true)
  | (s2, .error .machSendInvalidDest) => (s2, .ok false)
  | (s2, .error .terminated) => (s2, .ok false)
  | (s2, .error e) => (s2, .error e)

/-- The handles of the live thread map. -/
def liveActs (s : TaskProfiler) : List Nat :=
  s.liveThreads.map (·.1)

/-- The handles of the samplers moved to the dead list. -/
def deadActs (s : TaskProfiler) : List Nat :=
  s.deadThreads.map (·.threadAct)

/-- Whether the tick enumeration of the environment returns the handle. -/
def enumeratedB (env : SampleEnv) (a : Nat) : Bool :=
  match env.threadList with
  | .ok l => l.contains a
  | .error _ => false

/-- Splitting a character list on the path separator, leftmost group first. -/
def splitSlash : List Char → List (List Char)
  | [] => [[]]
  | c :: rest =>
    match splitSlash rest with
    | [] => [[c]]
    | g :: gs =>
      if c = '/' then [] :: g :: gs
      else (c :: g) :: gs

/-- Modelled from the spec: `Path::new(s).file_name()` of the standard library,
the final path component unless the path is empty, a root, or ends in a parent
reference. -/
def pathFileName (s : String) : Option String :=
  match (((splitSlash s.data).map (fun cs => String.mk cs)).filter
      (fun c => c ≠ "")).getLast? with
  | none => none
  | some c => if c = ".." then none else some c

/-- Modelled from the spec: a profile thread handed to the profile builder by
`ThreadSampler::into_profile_thread`; opaque to the core, so it wraps the sampler. -/
structure ProfileThread where
  thread : ThreadProfiler
deriving DecidableEq, Repr

/-- `ThreadProfiler::into_profile_thread`, modelled from the spec. -/
def intoProfileThread (t : ThreadProfiler) : ProfileThread :=
  ⟨t⟩

/-- One library entry recorded by `add_lib`: file-name, full path, UUID, arch, and
the half-open address range. -/
structure LibEntry where
  name : String
  path : String
  uuid : String
  arch : String
  rangeStart : Nat
  rangeEnd : Nat
deriving DecidableEq, Repr

/-- Modelled from the spec: the profile builder (`gecko_profile.rs` is not under
src) is a write-only sink; it records its constructor arguments, the added
threads, the optional end time, the added library entries, and the attached
subprocess profiles, each appended in call order. -/
inductive ProfileBuilder where
  | mk : Nat → String → Nat → Nat → List ProfileThread → Option Nat →
      List LibEntry → List ProfileBuilder → ProfileBuilder

/-- The library entries recorded in a profile builder. -/
def ProfileBuilder.libs : ProfileBuilder → List LibEntry
  | .mk _ _ _ _ _ _ ls _ => ls

/-- The subprocess profiles attached to a profile builder. -/
def ProfileBuilder.subs : ProfileBuilder → List ProfileBuilder
  | .mk _ _ _ _ _ _ _ ss => ss

/-- `ProfileBuilder::add_subprocess`, modelled from the spec: append the child. -/
def ProfileBuilder.addSubprocess : ProfileBuilder → ProfileBuilder → ProfileBuilder
  | .mk a b c d e f g ss, sub => .mk a b c d e f g (ss ++ [sub])

/-- The display name computation of `into_profile` (task_profiler.rs lines 169 to
183): the command line joined by spaces, else the file-name portion of the
executable module path (whose `file_name().unwrap()` panics when the path has no
file name), else the user supplied command name. -/
def intoProfileName (s : TaskProfiler) : PRes String :=
  match s.commandline with
  | some cmds => .ok (String.intercalate " " cmds)
  | none =>
    match s.executableLib with
    | some l =>
      match pathFileName l.file with
      | none => .panic
      | some n => .ok n
    | none => .ok s.commandName

/-- The library loop of `into_profile` (task_profiler.rs lines 201 to 217): a
module is added exactly when both its UUID and its arch are known, with its
file-name (`file_name().unwrap()` panics on a path without one), full path, UUID,
arch, and the range from base to base plus vmsize; otherwise it is skipped. -/
def addLibs : List DyldInfo → PRes (List LibEntry)
  | [] => .ok []
  | l :: rest =>
    match l.uuid, l.arch with
    | some u, some a =>
      match pathFileName l.file with
      | none => .panic
      | some n =>
        match addLibs rest with
        | .panic => .panic
        | .ok es => .ok (⟨n, l.file, u, a, l.address, l.address + l.vmsize⟩ :: es)
    | _, _ => addLibs rest

/-- The body of `into_profile` without the subtask loop (task_profiler.rs lines
168 to 217): compute the display name, add every thread (live then dead), set the
end time when present (instant subtraction modelled on `Nat`), and run the
library loop. -/
def into_profile_own (s : TaskProfiler) : PRes ProfileBuilder :=
  match intoProfileName s with
  | .panic => .panic
  | .ok name =>
    let threads :=
      (s.liveThreads.map (·.2) ++ s.deadThreads).map intoProfileThread
    let endT := s.endTime.map (fun e => e - s.startTime)
    match addLibs s.libs with
    | .panic => .panic
    | .ok es =>
      .ok (ProfileBuilder.mk s.startTime name s.pid s.interval threads endT es [])

/-- The subtask loop of `into_profile` (task_profiler.rs lines 219 to 221): each
subtask is turned into a profile with an empty sub-subtask list (for which the
recursive call equals `into_profile_own`) and attached. -/
def attachSubs : ProfileBuilder → List TaskProfiler → PRes ProfileBuilder
  | pb, [] => .ok pb
  | pb, t :: rest =>
    match into_profile_own t with
    | .panic => .panic
    | .ok sub => attachSubs (pb.addSubprocess sub) rest

/-- The embedding of `into_profile` (task_profiler.rs lines 168 to 225). -/
def into_profile (s : TaskProfiler) (subtasks : List TaskProfiler) :
    PRes ProfileBuilder :=
  match into_profile_own s with
  | .panic => .panic
  | .ok pb => attachSubs pb subtasks

/-- The library entry a module contributes to the profile, when any: present
exactly when both UUID and arch are known (and the path has a file name). -/
def dyldLibEntry (l : DyldInfo) : Option LibEntry :=
  match l.uuid, l.arch with
  | some u, some a =>
    (pathFileName l.file).map
      (fun n => ⟨n, l.file, u, a, l.address, l.address + l.vmsize⟩)
  | _, _ => none

/-- C4: for every sequence of unsized line records with monotonically
non-decreasing start RVAs (all of whose offsets translate), every target address
and every fallback end RVA, the implicit-end search of the code returns exactly
what the spec describes: the first record i with the address in
[start_i, end_i), where end_i is the next start or the fallback for the last
record, and none when no interval contains the address. -/
theorem find_no_size_matches_spec (rva : Nat → Option Nat)
    (address outerEndRva : Nat) (records : List LineInfo)
    (htrans : ∀ li ∈ records, (rva li.offset).isSome = true)
    (hmono : List.Chain' (· ≤ ·)
      (records.map (fun li => (rva li.offset).getD 0))) :
    find_line_info_containing_address_no_size rva address outerEndRva records =
      .ok (specImplicitEndSearch
        (records.map (fun li => (rva li.offset).getD 0))
        outerEndRva records address) := by
  induction records with
  | nil =>
    simp [find_line_info_containing_address_no_size, specImplicitEndSearch]
  | cons li rest ih =>
    cases rest with
    | nil =>
      obtain ⟨s, hs⟩ := Option.isSome_iff_exists.mp (htrans li (by simp))
      by_cases hc : s ≤ address ∧ address < outerEndRva
      · simp [find_line_info_containing_address_no_size, specImplicitEndSearch,
          hs, hc, List.find?]
      · simp [find_line_info_containing_address_no_size, specImplicitEndSearch,
          hs, hc, List.find?]
    | cons li2 rest2 =>
      obtain ⟨s, hs⟩ := Option.isSome_iff_exists.mp (htrans li (by simp))
      obtain ⟨e, he⟩ := Option.isSome_iff_exists.mp (htrans li2 (by simp))
      have htrans2 : ∀ x ∈ li2 :: rest2, (rva x.offset).isSome = true := by
        intro x hx
        exact htrans x (List.mem_cons_of_mem li hx)
      have hmono2 : List.Chain' (· ≤ ·)
          ((li2 :: rest2).map (fun x => (rva x.offset).getD 0)) := by
        simpa using (List.chain'_cons'.mp (by simpa using hmono)).2
      by_cases hc : s ≤ address ∧ address < e
      · simp [find_line_info_containing_address_no_size, specImplicitEndSearch,
          hs, he, hc, List.find?]
      · have hrec := ih htrans2 hmono2
        simp only [find_line_info_containing_address_no_size, hs, he,
          if_neg hc, hrec]
        simp [specImplicitEndSearch, hs, he, hc, List.find?, List.zip]


/-- The identity address map: every offset translates to itself. -/
def rvaId : Nat → Option Nat := fun o => some o

/-- Two unsized line records used to exercise the implicit-end search. -/
def c4recs : List LineInfo :=
  [⟨0, none, 1, 10, none⟩, ⟨4, none, 1, 11, none⟩]

/-- C4 witness: the search theorem applied at a concrete two-record program. -/
theorem find_no_size_matches_spec_witness :
    (∀ li ∈ c4recs, (rvaId li.offset).isSome = true)
    ∧ List.Chain' (· ≤ ·) (c4recs.map (fun li => (rvaId li.offset).getD 0))
    ∧ find_line_info_containing_address_no_size rvaId 5 8 c4recs =
        .ok (specImplicitEndSearch
          (c4recs.map (fun li => (rvaId li.offset).getD 0)) 8 c4recs 5) :=
  ⟨by decide, by simp [c4recs, rvaId, List.chain'_cons],
    find_no_size_matches_spec rvaId 5 8 c4recs (by decide)
      (by simp [c4recs, rvaId, List.chain'_cons])⟩

/-- C9 counterexample: both searches can return without panicking on an input
sequence that contains a record whose offset fails to translate. The sized
search skips a length-less record before the unwrap runs, and the unsized search
returns a match found before the untranslatable record is ever pulled. -/
theorem line_searches_no_panic_counterexample :
    find_line_info_containing_address_with_size (fun _ => none) 0
        [⟨0, none, 0, 0, none⟩] = .ok none
    ∧ find_line_info_containing_address_no_size
        (fun o => if o = 2 then none else some o) 0 10
        [⟨0, none, 0, 0, none⟩, ⟨1, none, 0, 0, none⟩, ⟨2, none, 0, 0, none⟩] =
        .ok (some ⟨0, none, 0, 0, none⟩) := by
  constructor <;> rfl

/-- C9 amended: both searches unwrap the RVA translation of every record they
actually traverse, so a traversed record with an untranslatable offset panics
the search (first and fourth conjuncts show the panic at the head of the
traversal); records never traversed cannot panic, and the searches are total
exactly under the precondition that every traversed record translates: all
records for the unsized search, all length-bearing records for the sized search
(records without a length are skipped before the unwrap). Procedure offsets, in
contrast, are skipped on translation failure (last conjunct). -/
theorem line_searches_unwrap_translation :
    (∀ (rva : Nat → Option Nat) (address outerEndRva : Nat) (li : LineInfo)
        (rest : List LineInfo), rva li.offset = none →
      find_line_info_containing_address_no_size rva address outerEndRva
        (li :: rest) = .panic)
    ∧ (∀ (rva : Nat → Option Nat) (address outerEndRva : Nat)
        (records : List LineInfo),
        (∀ li ∈ records, (rva li.offset).isSome = true) →
        find_line_info_containing_address_no_size rva address outerEndRva
          records ≠ .panic)
    ∧ (∀ (rva : Nat → Option Nat) (address : Nat) (li : LineInfo)
        (rest : List LineInfo), li.length.isSome = true → rva li.offset = none →
      find_line_info_containing_address_with_size rva address (li :: rest) =
        .panic)
    ∧ (∀ (rva : Nat → Option Nat) (address : Nat) (records : List LineInfo),
        (∀ li ∈ records, li.length.isSome = true →
          (rva li.offset).isSome = true) →
        find_line_info_containing_address_with_size rva address records ≠
          .panic)
    ∧ (∀ (ctx : Addr2LineContext) (address i : Nat) (p : ProcedureSymbol)
        (rest : List SymbolData), ctx.toRva p.offset = none →
      findProcInModuleAux ctx address i (.procedure p :: rest) =
        findProcInModuleAux ctx address (i + 1) rest) := by
  refine ⟨?_, ?_, ?_, ?_, ?_⟩
  · intro rva address outerEndRva li rest h
    cases rest with
    | nil => simp [find_line_info_containing_address_no_size, h]
    | cons li2 rest2 => simp [find_line_info_containing_address_no_size, h]
  · intro rva address outerEndRva records htrans
    induction records with
    | nil => simp [find_line_info_containing_address_no_size]
    | cons li rest ih =>
      obtain ⟨s, hs⟩ := Option.isSome_iff_exists.mp (htrans li (by simp))
      cases rest with
      | nil =>
        simp only [find_line_info_containing_address_no_size, hs]
        split <;> simp
      | cons li2 rest2 =>
        obtain ⟨e, he⟩ := Option.isSome_iff_exists.mp (htrans li2 (by simp))
        have htrans2 : ∀ x ∈ li2 :: rest2, (rva x.offset).isSome = true :=
          fun x hx => htrans x (List.mem_cons_of_mem li hx)
        simp only [find_line_info_containing_address_no_size, hs, he]
        split
        · simp
        · exact ih htrans2
  · intro rva address li rest hlen h
    obtain ⟨l, hl⟩ := Option.isSome_iff_exists.mp hlen
    simp [find_line_info_containing_address_with_size, hl, h]
  · intro rva address records htrans
    induction records with
    | nil => simp [find_line_info_containing_address_with_size]
    | cons li rest ih =>
      have htrans2 : ∀ x ∈ rest, x.length.isSome = true →
          (rva x.offset).isSome = true :=
        fun x hx => htrans x (List.mem_cons_of_mem li hx)
      simp only [find_line_info_containing_address_with_size]
      cases hlen : li.length with
      | none => exact ih htrans2
      | some l =>
        obtain ⟨s, hs⟩ := Option.isSome_iff_exists.mp
          (htrans li (by simp) (by simp [hlen]))
        simp only [hs]
        split
        · simp
        · exact ih htrans2
  · intro ctx address i p rest h
    simp [findProcInModuleAux, h]

/-- C9 amended witness: concrete panic of the unsized search on an
untranslatable head record, and concrete totality of the sized search over a
fully translatable record list. -/
theorem line_searches_unwrap_translation_witness :
    ((fun _ => (none : Option Nat)) (0 : Nat) = none
      ∧ find_line_info_containing_address_no_size (fun _ => none) 3 9
          [⟨0, none, 0, 0, none⟩] = .panic)
    ∧ ((∀ li ∈ ([⟨0, some 2, 0, 0, none⟩] : List LineInfo),
          li.length.isSome = true → (rvaId li.offset).isSome = true)
      ∧ find_line_info_containing_address_with_size rvaId 7
          [⟨0, some 2, 0, 0, none⟩] ≠ .panic) :=
  ⟨⟨rfl, line_searches_unwrap_translation.1 (fun _ => none) 3 9 _ [] rfl⟩,
    ⟨by decide, line_searches_unwrap_translation.2.2.2.1 rvaId 7
      [⟨0, some 2, 0, 0, none⟩] (by decide)⟩⟩

theorem findProc_none_iff (ctx : Addr2LineContext) (address : Nat) (i : Nat)
    (syms : List SymbolData) :
    findProcInModuleAux ctx address i syms = none ↔
      syms.any (matchesProcB ctx address) = false := by
  induction syms generalizing i with
  | nil => simp [findProcInModuleAux]
  | cons s rest ih =>
    cases s with
    | procedure p =>
      simp only [findProcInModuleAux, List.any_cons, matchesProcB]
      cases h : ctx.toRva p.offset with
      | none => simp [ih]
      | some sv =>
        by_cases hc : sv ≤ address ∧ address < sv + p.len
        · simp [hc]
        · simp [hc, ih]
    | inlineSite site => simp [findProcInModuleAux, matchesProcB, ih]
    | other => simp [findProcInModuleAux, matchesProcB, ih]

theorem findProc_some_any (ctx : Addr2LineContext) (address : Nat)
    (syms : List SymbolData) (i j s e : Nat) (p : ProcedureSymbol)
    (h : findProcInModuleAux ctx address i syms = some (j, p, s, e)) :
    syms.any (matchesProcB ctx address) = true := by
  cases hany : syms.any (matchesProcB ctx address) with
  | false =>
    rw [(findProc_none_iff ctx address i syms).mpr hany] at h
    cases h
  | true => rfl

theorem collectInlineFrames_mem (ctx : Addr2LineContext) (m : ModuleDebugInfo)
    (address procOffset : Nat) :
    ∀ (syms : List SymbolData) (inlines : List Frame),
    collectInlineFrames ctx m address procOffset syms = .ok inlines →
    ∀ f ∈ inlines, ∃ site,
      frames_for_address_for_inline_symbol ctx m site address procOffset =
        .ok (some f) := by
  intro syms
  induction syms with
  | nil =>
    intro inlines h f hf
    simp only [collectInlineFrames, PRes.ok.injEq] at h
    subst h
    simp at hf
  | cons s rest ih =>
    intro inlines h f hf
    cases s with
    | procedure p =>
      simp only [collectInlineFrames, PRes.ok.injEq] at h
      subst h
      simp at hf
    | other =>
      simp only [collectInlineFrames] at h
      exact ih inlines h f hf
    | inlineSite site =>
      rcases hsite : frames_for_address_for_inline_symbol ctx m site address
          procOffset with _ | o
      · simp [collectInlineFrames, hsite] at h
      · cases o with
        | none =>
          simp only [collectInlineFrames, hsite] at h
          exact ih inlines h f hf
        | some f0 =>
          rcases hrest : collectInlineFrames ctx m address procOffset rest
              with _ | fs
          · simp [collectInlineFrames, hsite, hrest] at h
          · simp only [collectInlineFrames, hsite, hrest, PRes.ok.injEq] at h
            subst h
            rcases List.mem_cons.mp hf with hf | hf
            · exact ⟨site, hf ▸ hsite⟩
            · exact ih fs hrest f hf

theorem inline_frame_fields (ctx : Addr2LineContext) (m : ModuleDebugInfo)
    (site : InlineSiteSymbol) (address procOffset : Nat) (f : Frame)
    (h : frames_for_address_for_inline_symbol ctx m site address procOffset =
      .ok (some f)) :
    f.function.isSome = true ∧ f.location.isSome = true := by
  unfold frames_for_address_for_inline_symbol at h
  split at h
  · simp at h
  · split at h
    · simp at h
    · simp at h
    · simp only [PRes.ok.injEq, Option.some.injEq] at h
      subst h
      simp

theorem find_frames_from_procedure_shape (ctx : Addr2LineContext)
    (m : ModuleDebugInfo) (address symIndex rangeEnd : Nat)
    (p : ProcedureSymbol) (frames : List Frame)
    (h : find_frames_from_procedure ctx m address symIndex p rangeEnd =
      .ok frames) :
    ∃ oli inlines,
      find_line_info_containing_address_no_size ctx.toRva address rangeEnd
        (m.lineProgram.linesAtOffset p.offset) = .ok oli
      ∧ collectInlineFrames ctx m address p.offset
          (m.symbols.drop (symIndex + 1)) = .ok inlines
      ∧ frames =
          ({ function := some (ctx.writeFunction p.name p.typeIndex)
             location := oli.map (line_info_to_location m.lineProgram) }
            :: inlines).reverse := by
  revert h
  unfold find_frames_from_procedure
  cases h1 : find_line_info_containing_address_no_size ctx.toRva address
      rangeEnd (m.lineProgram.linesAtOffset p.offset) with
  | panic => intro h; simp at h
  | ok oli =>
    cases h2 : collectInlineFrames ctx m address p.offset
        (m.symbols.drop (symIndex + 1)) with
    | panic => intro h; simp at h
    | ok inlines =>
      intro h
      simp only [PRes.ok.injEq] at h
      exact ⟨oli, inlines, rfl, rfl, h.symm⟩

theorem find_frames_in_modules_cases (ctx : Addr2LineContext) (address : Nat) :
    ∀ (ms : List ModuleDebugInfo) (frames : List Frame),
    find_frames_in_modules ctx address ms = .ok (.ok frames) →
    (frames = [] ∧ ctx.modulesErr = false
      ∧ ∀ m ∈ ms, m.symbols.any (matchesProcB ctx address) = false)
    ∨ (∃ m ∈ ms, ∃ i p s e,
        findProcInModuleAux ctx address 0 m.symbols = some (i, p, s, e)
        ∧ find_frames_from_procedure ctx m address i p e = .ok frames) := by
  intro ms
  induction ms with
  | nil =>
    intro frames h
    left
    simp only [find_frames_in_modules] at h
    cases herr : ctx.modulesErr with
    | true => rw [herr] at h; simp at h
    | false =>
      rw [herr] at h
      simp only [Bool.false_eq_true, if_false, PRes.ok.injEq,
        Except.ok.injEq] at h
      subst h
      exact ⟨rfl, rfl, by simp⟩
  | cons m rest ih =>
    intro frames h
    simp only [find_frames_in_modules] at h
    split at h
    · rename_i hfp
      rcases ih frames h with ⟨h1, h2, h3⟩ | ⟨m2, hm2, hrest⟩
      · refine Or.inl ⟨h1, h2, ?_⟩
        intro x hx
        rcases List.mem_cons.mp hx with hx | hx
        · subst hx
          exact (findProc_none_iff ctx address 0 x.symbols).mp hfp
        · exact h3 x hx
      · exact Or.inr ⟨m2, List.mem_cons_of_mem m hm2, hrest⟩
    · rename_i i p s e hfp
      split at h
      · simp at h
      · rename_i fr hff
        simp only [PRes.ok.injEq, Except.ok.injEq] at h
        subst h
        exact Or.inr ⟨m, by simp, i, p, s, e, hfp, hff⟩

theorem find_frames_in_modules_all_none (ctx : Addr2LineContext)
    (address : Nat) :
    ∀ ms : List ModuleDebugInfo,
    (∀ m ∈ ms, m.symbols.any (matchesProcB ctx address) = false) →
    find_frames_in_modules ctx address ms =
      .ok (if ctx.modulesErr then Except.error PdbError.malformed
        else Except.ok []) := by
  intro ms
  induction ms with
  | nil => intro _; simp [find_frames_in_modules]
  | cons m rest ih =>
    intro hall
    have hnone : findProcInModuleAux ctx address 0 m.symbols = none :=
      (findProc_none_iff ctx address 0 m.symbols).mpr (hall m (by simp))
    simp only [find_frames_in_modules, hnone]
    exact ih (fun x hx => hall x (List.mem_cons_of_mem m hx))

theorem coveredB_false_all (ctx : Addr2LineContext) (address : Nat)
    (hcov : coveredB ctx address = false) :
    ∀ m ∈ ctx.modules, m.symbols.any (matchesProcB ctx address) = false := by
  intro m hm
  cases hb : m.symbols.any (matchesProcB ctx address) with
  | false => rfl
  | true =>
    have : ctx.modules.any
        (fun m => m.symbols.any (matchesProcB ctx address)) = true :=
      List.any_eq_true.mpr ⟨m, hm, hb⟩
    rw [coveredB] at hcov
    rw [this] at hcov
    cases hcov

/-- C2: for every address, find_frames returns a non-empty frame list iff some
enumerated module contains a procedure symbol whose half-open RVA range contains
the address; and when no module contains the address (and the module stream is
readable), the result is the empty sequence and no error is raised. -/
theorem find_frames_nonempty_iff_covered (ctx : Addr2LineContext)
    (address : Nat) :
    (ctx.modulesErr = false → coveredB ctx address = false →
      find_frames ctx address = .ok (.ok []))
    ∧ (∀ frames, find_frames ctx address = .ok (.ok frames) →
        (frames ≠ [] ↔ coveredB ctx address = true)) := by
  constructor
  · intro herr hcov
    rw [find_frames,
      find_frames_in_modules_all_none ctx address ctx.modules
        (coveredB_false_all ctx address hcov), herr]
    rfl
  · intro frames h
    rcases find_frames_in_modules_cases ctx address ctx.modules frames h with
      ⟨h1, _h2, h3⟩ | ⟨m, hm, i, p, s, e, hfp, hff⟩
    · subst h1
      constructor
      · intro hne; exact absurd rfl hne
      · intro hcov
        cases hb : coveredB ctx address with
        | false => rw [hb] at hcov; cases hcov
        | true =>
          rcases List.any_eq_true.mp hcov with ⟨m, hm, hany⟩
          rw [h3 m hm] at hany
          cases hany
    · obtain ⟨oli, inlines, _hno, _hcoll, hshape⟩ :=
        find_frames_from_procedure_shape ctx m address i e p frames hff
      constructor
      · intro _
        exact List.any_eq_true.mpr ⟨m, hm, findProc_some_any ctx address
          m.symbols 0 i s e p hfp⟩
      · intro _
        subst hshape
        simp

/-- C1: whenever find_frames succeeds with a frame list, that list comes from
the first covering procedure of some module, built as the outer procedure frame
followed by the inline-site frames collected along the symbol stream and then
reversed; hence the last frame is the physical procedure (with its formatted
name and the location of the unsized line search) and every earlier frame is
produced by an inline site covering the address. -/
theorem find_frames_innermost_first (ctx : Addr2LineContext) (address : Nat)
    (frames : List Frame)
    (h : find_frames ctx address = .ok (.ok frames)) (hne : frames ≠ []) :
    ∃ m ∈ ctx.modules, ∃ i p s e oli inlines,
      findProcInModuleAux ctx address 0 m.symbols = some (i, p, s, e)
      ∧ find_line_info_containing_address_no_size ctx.toRva address e
          (m.lineProgram.linesAtOffset p.offset) = .ok oli
      ∧ collectInlineFrames ctx m address p.offset (m.symbols.drop (i + 1)) =
          .ok inlines
      ∧ frames =
          ({ function := some (ctx.writeFunction p.name p.typeIndex)
             location := oli.map (line_info_to_location m.lineProgram) }
            :: inlines).reverse
      ∧ frames.getLast? =
          some { function := some (ctx.writeFunction p.name p.typeIndex)
                 location := oli.map (line_info_to_location m.lineProgram) }
      ∧ ∀ f ∈ frames.dropLast, ∃ site,
          frames_for_address_for_inline_symbol ctx m site address p.offset =
            .ok (some f) := by
  rcases find_frames_in_modules_cases ctx address ctx.modules frames h with
    ⟨h1, _, _⟩ | ⟨m, hm, i, p, s, e, hfp, hff⟩
  · exact absurd h1 hne
  obtain ⟨oli, inlines, hno, hcoll, hshape⟩ :=
    find_frames_from_procedure_shape ctx m address i e p frames hff
  refine ⟨m, hm, i, p, s, e, oli, inlines, hfp, hno, hcoll, hshape, ?_, ?_⟩
  · rw [hshape, List.reverse_cons, List.getLast?_concat]
  · intro f hf
    have hmem : f ∈ inlines := by
      rw [hshape, List.reverse_cons, List.dropLast_concat,
        List.mem_reverse] at hf
      exact hf
    exact collectInlineFrames_mem ctx m address p.offset
      (m.symbols.drop (i + 1)) inlines hcoll f hmem

/-- C7: whenever find_frames succeeds, every returned frame has at least one of
function and location present; the last (outer procedure) frame always has a
present function name, and every earlier (inline) frame has both a present
function and a present location; a frame with both fields absent never occurs. -/
theorem find_frames_fields_present (ctx : Addr2LineContext) (address : Nat)
    (frames : List Frame)
    (h : find_frames ctx address = .ok (.ok frames)) :
    (∀ f ∈ frames, f.function.isSome = true ∨ f.location.isSome = true)
    ∧ (∀ f, frames.getLast? = some f → f.function.isSome = true)
    ∧ (∀ f ∈ frames.dropLast,
        f.function.isSome = true ∧ f.location.isSome = true) := by
  rcases find_frames_in_modules_cases ctx address ctx.modules frames h with
    ⟨h1, _, _⟩ | ⟨m, hm, i, p, s, e, hfp, hff⟩
  · subst h1
    refine ⟨by simp, ?_, by simp⟩
    intro f hf
    simp at hf
  obtain ⟨oli, inlines, hno, hcoll, hshape⟩ :=
    find_frames_from_procedure_shape ctx m address i e p frames hff
  have hinl : ∀ f ∈ inlines,
      f.function.isSome = true ∧ f.location.isSome = true := by
    intro f hf
    obtain ⟨site, hsite⟩ := collectInlineFrames_mem ctx m address p.offset
      (m.symbols.drop (i + 1)) inlines hcoll f hf
    exact inline_frame_fields ctx m site address p.offset f hsite
  subst hshape
  refine ⟨?_, ?_, ?_⟩
  · intro f hf
    rw [List.reverse_cons, List.mem_append] at hf
    rcases hf with hf | hf
    · exact Or.inl (hinl f (List.mem_reverse.mp hf)).1
    · rcases List.mem_singleton.mp hf with rfl
      exact Or.inl (by simp)
  · intro f hf
    rw [List.reverse_cons, List.getLast?_concat, Option.some.injEq] at hf
    subst hf
    simp
  · intro f hf
    rw [List.reverse_cons, List.dropLast_concat, List.mem_reverse] at hf
    exact hinl f hf

/-- A context whose debug data fails while reading the module stream. -/
def ctxErr : Addr2LineContext :=
  { toRva := fun _ => none
    writeFunction := fun n _ => n
    writeId := fun _ => ""
    modules := []
    modulesErr := true }

/-- A context with no modules and readable debug data. -/
def ctx0 : Addr2LineContext :=
  { toRva := fun _ => none
    writeFunction := fun n _ => n
    writeId := fun _ => ""
    modules := []
    modulesErr := false }

/-- A procedure named foo at RVA 4096 with length 80. -/
def proc1 : ProcedureSymbol := ⟨"foo", 0, 4096, 80⟩

/-- A module holding only `proc1`, with one unsized line record at its start. -/
def mod1 : ModuleDebugInfo :=
  { symbols := [.procedure proc1]
    lineProgram :=
      { linesAtOffset := fun o =>
          if o = 4096 then [⟨4096, none, 1, 10, none⟩] else []
        fileName := fun _ => some "a.c" }
    inlinees := fun _ => none }

/-- A context enumerating only `mod1`, with the identity address map. -/
def ctx1 : Addr2LineContext :=
  { toRva := fun o => some o
    writeFunction := fun n _ => n
    writeId := fun _ => "inl"
    modules := [mod1]
    modulesErr := false }

/-- The single frame resolved by `ctx1` at address 4128. -/
def frame1 : Frame := ⟨some "foo", some ⟨some "a.c", some 10, none⟩⟩

/-- C3 counterexample: on debug data whose module stream fails to read,
find_frames surfaces the error instead of returning an empty frame list. -/
theorem find_frames_error_counterexample :
    find_frames ctxErr 0 = .ok (.error .malformed)
    ∧ find_frames ctxErr 0 ≠ .ok (.ok []) :=
  ⟨rfl, fun h => Except.noConfusion (PRes.ok.inj h)⟩

/-- C3 amended: when reading the debug data fails (and no earlier module already
resolved the address), find_frames propagates the error to its caller; the
conversion of symbolication errors into empty frame lists happens outside this
module, and only line-record iteration inside the searches is swallowed. -/
theorem find_frames_propagates_read_error (ctx : Addr2LineContext)
    (address : Nat) (herr : ctx.modulesErr = true)
    (hcov : coveredB ctx address = false) :
    find_frames ctx address = .ok (.error .malformed) := by
  rw [find_frames,
    find_frames_in_modules_all_none ctx address ctx.modules
      (coveredB_false_all ctx address hcov), herr]
  rfl

/-- C3 amended witness: the propagation theorem applied at the concrete failing
context. -/
theorem find_frames_propagates_read_error_witness :
    ctxErr.modulesErr = true ∧ coveredB ctxErr 0 = false
    ∧ find_frames ctxErr 0 = .ok (.error .malformed) :=
  ⟨rfl, rfl, find_frames_propagates_read_error ctxErr 0 rfl rfl⟩

/-- C2 witness: the coverage theorem applied at a coverage-free context and at a
context with one covering procedure. -/
theorem find_frames_nonempty_iff_covered_witness :
    find_frames ctx0 7 = .ok (.ok [])
    ∧ ([frame1] ≠ [] ↔ coveredB ctx1 4128 = true) :=
  ⟨(find_frames_nonempty_iff_covered ctx0 7).1 rfl rfl,
    (find_frames_nonempty_iff_covered ctx1 4128).2 [frame1] rfl⟩

/-- C1 witness: the ordering theorem applied at the concrete one-procedure
context, whose resolved list is the single outer frame. -/
theorem find_frames_innermost_first_witness :
    find_frames ctx1 4128 = .ok (.ok [frame1])
    ∧ ∃ m ∈ ctx1.modules, ∃ i p s e oli inlines,
      findProcInModuleAux ctx1 4128 0 m.symbols = some (i, p, s, e)
      ∧ find_line_info_containing_address_no_size ctx1.toRva 4128 e
          (m.lineProgram.linesAtOffset p.offset) = .ok oli
      ∧ collectInlineFrames ctx1 m 4128 p.offset (m.symbols.drop (i + 1)) =
          .ok inlines
      ∧ [frame1] =
          ({ function := some (ctx1.writeFunction p.name p.typeIndex)
             location := oli.map (line_info_to_location m.lineProgram) }
            :: inlines).reverse
      ∧ [frame1].getLast? =
          some { function := some (ctx1.writeFunction p.name p.typeIndex)
                 location := oli.map (line_info_to_location m.lineProgram) }
      ∧ ∀ f ∈ [frame1].dropLast, ∃ site,
          frames_for_address_for_inline_symbol ctx1 m site 4128 p.offset =
            .ok (some f) :=
  ⟨rfl, find_frames_innermost_first ctx1 4128 [frame1] rfl (by decide)⟩

/-- C7 witness: the field-presence theorem applied at the concrete context. -/
theorem find_frames_fields_present_witness :
    (∀ f ∈ [frame1], f.function.isSome = true ∨ f.location.isSome = true)
    ∧ (∀ f, [frame1].getLast? = some f → f.function.isSome = true)
    ∧ (∀ f ∈ [frame1].dropLast,
        f.function.isSome = true ∧ f.location.isSome = true) :=
  find_frames_fields_present ctx1 4128 [frame1] rfl

theorem applyChange_added_libs (s : TaskProfiler) (lib : DyldInfo) :
    (applyChange s (.added lib)).libs = s.libs ++ [lib] := by
  simp only [applyChange]
  split <;> rfl

theorem applyChange_added_exec (s : TaskProfiler) (lib : DyldInfo) :
    (applyChange s (.added lib)).executableLib =
      if s.executableLib.isNone && lib.isExecutable then some lib
      else s.executableLib := by
  simp only [applyChange]
  split <;> rfl

theorem applyChange_threads (s : TaskProfiler) (c : Modification) :
    (applyChange s c).liveThreads = s.liveThreads
    ∧ (applyChange s c).deadThreads = s.deadThreads := by
  cases c with
  | added lib =>
    simp only [applyChange]
    split <;> exact ⟨rfl, rfl⟩
  | removed _ => exact ⟨rfl, rfl⟩

theorem applyModuleChanges_libs (s : TaskProfiler) (cs : List Modification) :
    (applyModuleChanges s cs).libs =
      s.libs ++ cs.filterMap Modification.addedLib := by
  induction cs generalizing s with
  | nil => simp [applyModuleChanges]
  | cons c rest ih =>
    have hstep : applyModuleChanges s (c :: rest) =
        applyModuleChanges (applyChange s c) rest := rfl
    cases c with
    | added lib =>
      rw [hstep, ih, applyChange_added_libs]
      simp [Modification.addedLib]
    | removed l =>
      rw [hstep, ih]
      simp [applyChange, Modification.addedLib]

theorem applyModuleChanges_exec (s : TaskProfiler) (cs : List Modification) :
    (applyModuleChanges s cs).executableLib =
      (match s.executableLib with
        | some e => some e
        | none =>
          (cs.filterMap Modification.addedLib).find?
            (fun l => l.isExecutable)) := by
  induction cs generalizing s with
  | nil => cases hex : s.executableLib <;> simp [applyModuleChanges, hex]
  | cons c rest ih =>
    have hstep : applyModuleChanges s (c :: rest) =
        applyModuleChanges (applyChange s c) rest := rfl
    cases c with
    | removed l =>
      rw [hstep, ih]
      simp [applyChange, Modification.addedLib]
    | added lib =>
      rw [hstep, ih, applyChange_added_exec]
      cases hex : s.executableLib with
      | some e => simp [Modification.addedLib]
      | none =>
        cases hb : lib.isExecutable with
        | true => simp [Modification.addedLib, List.find?, hb]
        | false => simp [Modification.addedLib, List.find?, hb]

theorem applyModuleChanges_threads (s : TaskProfiler) (cs : List Modification) :
    (applyModuleChanges s cs).liveThreads = s.liveThreads
    ∧ (applyModuleChanges s cs).deadThreads = s.deadThreads := by
  induction cs generalizing s with
  | nil => exact ⟨rfl, rfl⟩
  | cons c rest ih =>
    have hstep : applyModuleChanges s (c :: rest) =
        applyModuleChanges (applyChange s c) rest := rfl
    rw [hstep]
    obtain ⟨h1, h2⟩ := ih (applyChange s c)
    obtain ⟨h3, h4⟩ := applyChange_threads s c
    exact ⟨h1.trans h3, h2.trans h4⟩

theorem threadLoop_state (env : SampleEnv) :
    ∀ (acts : List Nat) (s : TaskProfiler) (nl : List Nat),
    ∃ added : List (Nat × ThreadProfiler),
      (threadLoop env acts s nl).1 =
        { s with liveThreads := s.liveThreads ++ added }
      ∧ ∀ p ∈ added, p.1 ∈ acts := by
  intro acts
  induction acts with
  | nil =>
    intro s nl
    exact ⟨[], by simp [threadLoop], by simp⟩
  | cons act rest ih =>
    intro s nl
    simp only [threadLoop]
    cases hl : s.liveThreads.lookup act with
    | some t =>
      cases hs : env.threadSample act with
      | error e => exact ⟨[], by simp, by simp⟩
      | ok alive =>
        obtain ⟨added, heq, hmem⟩ :=
          ih s (if alive then nl ++ [act] else nl)
        exact ⟨added, heq, fun p hp => List.mem_cons_of_mem act (hmem p hp)⟩
    | none =>
      cases hn : env.newThread act with
      | error e => exact ⟨[], by simp, by simp⟩
      | ok o =>
        cases o with
        | none =>
          obtain ⟨added, heq, hmem⟩ := ih s nl
          exact ⟨added, heq, fun p hp => List.mem_cons_of_mem act (hmem p hp)⟩
        | some t =>
          cases hs : env.threadSample act with
          | error e =>
            refine ⟨[(act, t)], rfl, ?_⟩
            intro p hp
            rcases List.mem_singleton.mp hp with rfl
            simp
          | ok alive =>
            obtain ⟨added, heq, hmem⟩ :=
              ih { s with liveThreads := s.liveThreads ++ [(act, t)] }
                (if alive then nl ++ [act] else nl)
            refine ⟨(act, t) :: added, ?_, ?_⟩
            · rw [heq]
              simp
            · intro p hp
              rcases List.mem_cons.mp hp with rfl | hp
              · simp
              · exact List.mem_cons_of_mem act (hmem p hp)

theorem moveDead_state (now : Nat) :
    ∀ (ds : List Nat) (s : TaskProfiler),
    (moveDead now s ds).libs = s.libs
    ∧ (moveDead now s ds).executableLib = s.executableLib
    ∧ (∀ x, x ∈ liveActs (moveDead now s ds) → x ∈ liveActs s)
    ∧ (∀ x, x ∈ deadActs s → x ∈ deadActs (moveDead now s ds)) := by
  intro ds
  induction ds with
  | nil =>
    intro s
    exact ⟨rfl, rfl, fun x hx => hx, fun x hx => hx⟩
  | cons act rest ih =>
    intro s
    simp only [moveDead]
    cases hl : s.liveThreads.lookup act with
    | none => exact ih s
    | some t =>
      obtain ⟨h1, h2, h3, h4⟩ := ih
        { s with
          liveThreads := s.liveThreads.filter (fun p => p.1 ≠ act)
          deadThreads := s.deadThreads ++ [notifyDeadThread t now] }
      refine ⟨h1, h2, ?_, ?_⟩
      · intro x hx
        have hx2 := h3 x hx
        simp only [liveActs, List.mem_map] at hx2 ⊢
        obtain ⟨p, hp, hpx⟩ := hx2
        exact ⟨p, (List.mem_filter.mp hp).1, hpx⟩
      · intro x hx
        apply h4
        simp only [deadActs, List.map_append, List.mem_append]
        exact Or.inl hx

theorem sample_fst (env : SampleEnv) (s : TaskProfiler) (now : Nat) :
    (sample env s now).1 = (sample_impl env s now).1 := by
  unfold sample
  rcases sample_impl env s now with ⟨s2, r⟩
  cases r with
  | ok u => rfl
  | error e => cases e <;> rfl

theorem sample_impl_eq_error (env : SampleEnv) (s : TaskProfiler) (now : Nat)
    (e : KernelError) (h : env.threadList = .error e) :
    sample_impl env s now =
      (applyModuleChanges s (changesOf env),
        .error (translateEnumErr e)) := by
  unfold sample_impl
  rw [h]

theorem sample_impl_eq_ok (env : SampleEnv) (s : TaskProfiler) (now : Nat)
    (acts : List Nat) (h : env.threadList = .ok acts) :
    sample_impl env s now =
      (match threadLoop env acts (applyModuleChanges s (changesOf env)) [] with
        | (s2, .error e) => (s2, Except.error e)
        | (s2, .ok nowLive) =>
          (moveDead now s2
            (((applyModuleChanges s (changesOf env)).liveThreads.map
              (fun p => p.1)).filter (fun a => a ∉ nowLive)),
            Except.ok ())) := by
  unfold sample_impl
  rw [h]

theorem sample_impl_state_facts (env : SampleEnv) (s : TaskProfiler)
    (now : Nat) :
    (sample_impl env s now).1.libs =
      (applyModuleChanges s (changesOf env)).libs
    ∧ (sample_impl env s now).1.executableLib =
        (applyModuleChanges s (changesOf env)).executableLib
    ∧ (∀ x, x ∈ liveActs (sample_impl env s now).1 →
        x ∈ liveActs s ∨ enumeratedB env x = true)
    ∧ (∀ x, x ∈ deadActs s → x ∈ deadActs (sample_impl env s now).1) := by
  obtain ⟨hlt, hdt⟩ := applyModuleChanges_threads s (changesOf env)
  cases hTL : env.threadList with
  | error e =>
    rw [sample_impl_eq_error env s now e hTL]
    refine ⟨rfl, rfl, ?_, ?_⟩
    · intro x hx
      left
      simpa [liveActs, hlt] using hx
    · intro x hx
      simpa [deadActs, hdt] using hx
  | ok acts =>
    rw [sample_impl_eq_ok env s now acts hTL]
    obtain ⟨added, heq0, hmem⟩ :=
      threadLoop_state env acts (applyModuleChanges s (changesOf env)) []
    cases hLoop : threadLoop env acts
        (applyModuleChanges s (changesOf env)) [] with
    | mk s2 r =>
      rw [hLoop] at heq0
      replace heq0 : s2 = _ := heq0
      have hs2libs : s2.libs = (applyModuleChanges s (changesOf env)).libs := by
        rw [heq0]
      have hs2exec : s2.executableLib =
          (applyModuleChanges s (changesOf env)).executableLib := by
        rw [heq0]
      have hs2dead : s2.deadThreads =
          (applyModuleChanges s (changesOf env)).deadThreads := by
        rw [heq0]
      have hs2live : ∀ x, x ∈ liveActs s2 →
          x ∈ liveActs s ∨ enumeratedB env x = true := by
        intro x hx
        rw [heq0] at hx
        simp only [liveActs, List.map_append, List.mem_append, hlt] at hx
        rcases hx with hx | hx
        · exact Or.inl hx
        · right
          obtain ⟨p, hp, hpx⟩ := List.mem_map.mp hx
          have hxa : x ∈ acts := hpx ▸ hmem p hp
          simp [enumeratedB, hTL, hxa]
      have hs2deadmem : ∀ x, x ∈ deadActs s → x ∈ deadActs s2 := by
        intro x hx
        simp only [deadActs, hs2dead, hdt]
        simpa [deadActs] using hx
      cases r with
      | error e => exact ⟨hs2libs, hs2exec, hs2live, hs2deadmem⟩
      | ok nowLive =>
        refine ⟨?_, ?_, ?_, ?_⟩
        · exact ((moveDead_state now _ s2).1).trans hs2libs
        · exact ((moveDead_state now _ s2).2.1).trans hs2exec
        · intro x hx
          exact hs2live x ((moveDead_state now _ s2).2.2.1 x hx)
        · intro x hx
          exact (moveDead_state now _ s2).2.2.2 x (hs2deadmem x hx)

/-- C5: a thread enumeration failure with the invalid argument code is
translated to process terminated and sample returns false; a sampling failure
with invalid destination or terminated also returns false; an enumeration
failure with any other code, and any other sampling failure, propagate to the
caller as errors; success returns true. -/
theorem sample_error_translation (env : SampleEnv) (s : TaskProfiler)
    (now : Nat) :
    (env.threadList = .error .invalidArgument →
      (sample env s now).2 = .ok false)
    ∧ (∀ n, env.threadList = .error (.other n) →
        (sample env s now).2 = .error (.other n))
    ∧ ((sample_impl env s now).2 = .error .machSendInvalidDest →
        (sample env s now).2 = .ok false)
    ∧ ((sample_impl env s now).2 = .error .terminated →
        (sample env s now).2 = .ok false)
    ∧ (∀ e, (sample_impl env s now).2 = .error e →
        e ≠ .machSendInvalidDest → e ≠ .terminated →
        (sample env s now).2 = .error e)
    ∧ ((sample_impl env s now).2 = .ok () → (sample env s now).2 = .ok true) := by
  refine ⟨?_, ?_, ?_, ?_, ?_, ?_⟩
  · intro h
    unfold sample
    rw [sample_impl_eq_error env s now _ h]
    rfl
  · intro n h
    unfold sample
    rw [sample_impl_eq_error env s now _ h]
    rfl
  · intro h
    unfold sample
    rcases hsi : sample_impl env s now with ⟨s2, r⟩
    rw [hsi] at h
    have hr : r = .error .machSendInvalidDest := h
    subst hr
    rfl
  · intro h
    unfold sample
    rcases hsi : sample_impl env s now with ⟨s2, r⟩
    rw [hsi] at h
    have hr : r = .error .terminated := h
    subst hr
    rfl
  · intro e h hne1 hne2
    unfold sample
    rcases hsi : sample_impl env s now with ⟨s2, r⟩
    rw [hsi] at h
    have hr : r = .error e := h
    subst hr
    cases e with
    | invalidArgument => rfl
    | machSendInvalidDest => exact absurd rfl hne1
    | terminated => exact absurd rfl hne2
    | other n => rfl
  · intro h
    unfold sample
    rcases hsi : sample_impl env s now with ⟨s2, r⟩
    rw [hsi] at h
    have hr : r = .ok () := h
    subst hr
    rfl

/-- A task state with no threads and no modules. -/
def taskEmpty : TaskProfiler :=
  ⟨1, 2, 10, 0, none, [], [], [], none, none, "x"⟩

/-- An environment whose thread enumeration fails with invalid argument. -/
def env5 : SampleEnv :=
  ⟨.ok [], .error .invalidArgument, fun _ => .ok none, fun _ => .ok true⟩

/-- C5 witness: the translation theorem applied at a concrete environment whose
enumeration fails with invalid argument. -/
theorem sample_error_translation_witness :
    env5.threadList = .error .invalidArgument
    ∧ (sample env5 taskEmpty 3).2 = .ok false :=
  ⟨rfl, (sample_error_translation env5 taskEmpty 3).1 rfl⟩

/-- C10: module deltas are applied before thread enumeration, and nothing later
in the tick ever undoes them: whatever the outcome of sample (true, false or an
error), the returned state carries the appended added modules and the recorded
executable module. Stated without an outcome hypothesis, so it covers in
particular the false and error outcomes. -/
theorem sample_module_deltas_persist (env : SampleEnv) (s : TaskProfiler)
    (now : Nat) :
    ((sample env s now).1).libs =
      s.libs ++ (changesOf env).filterMap Modification.addedLib
    ∧ ((sample env s now).1).executableLib =
        (match s.executableLib with
          | some e => some e
          | none =>
            ((changesOf env).filterMap Modification.addedLib).find?
              (fun l => l.isExecutable)) := by
  have h := sample_impl_state_facts env s now
  rw [sample_fst env s now]
  exact ⟨h.1.trans (applyModuleChanges_libs s (changesOf env)),
    h.2.1.trans (applyModuleChanges_exec s (changesOf env))⟩

/-- The sampler remembered for handle 7. -/
def tp7 : ThreadProfiler := ⟨7, false, none⟩

/-- A task state whose only live thread is handle 7. -/
def task6 : TaskProfiler :=
  ⟨1, 2, 10, 0, none, [(7, tp7)], [], [], none, none, "x"⟩

/-- A tick in which handle 7 is enumerated but reports itself exited. -/
def env6a : SampleEnv :=
  ⟨.ok [], .ok [7], fun _ => .ok none, fun _ => .ok false⟩

/-- A later tick in which the platform returns handle 7 again. -/
def env6b : SampleEnv :=
  ⟨.ok [], .ok [7], fun _ => .ok (some tp7), fun _ => .ok true⟩

/-- C6 counterexample: the code keeps no guard against handle reuse. After a
tick moves the sampler for handle 7 into the dead list, a later tick whose
enumeration returns 7 again re-inserts a sampler for 7 into the live map. -/
theorem sample_reinserts_reused_handle :
    7 ∈ deadActs (sample env6a task6 1).1
    ∧ 7 ∈ liveActs (sample env6b (sample env6a task6 1).1 2).1 := by
  constructor <;> decide

/-- C6 amended: once a sampler for handle H sits in dead_threads (and H is no
longer a live key), no later sample call re-inserts H into live_threads
PROVIDED the platform enumeration never returns H again; the sample code only
inserts keys it enumerates, so the invariant holds exactly under that
no-handle-reuse assumption, and the dead entry itself persists. -/
theorem sample_no_reinsert (env : SampleEnv) (s : TaskProfiler) (now a : Nat)
    (hdead : a ∈ deadActs s) (hlive : a ∉ liveActs s)
    (henum : enumeratedB env a = false) :
    a ∉ liveActs (sample env s now).1 ∧ a ∈ deadActs (sample env s now).1 := by
  have h := sample_impl_state_facts env s now
  rw [sample_fst env s now]
  constructor
  · intro hx
    rcases h.2.2.1 a hx with hx2 | hx2
    · exact hlive hx2
    · rw [henum] at hx2
      exact Bool.noConfusion hx2
  · exact h.2.2.2 a hdead

/-- A task state with handle 7 already dead and nothing live. -/
def task6b : TaskProfiler :=
  ⟨1, 2, 10, 0, none, [], [⟨7, false, some 1⟩], [], none, none, "x"⟩

/-- A tick enumerating only handle 9. -/
def env6c : SampleEnv :=
  ⟨.ok [], .ok [9], fun _ => .ok none, fun _ => .ok true⟩

/-- C6 amended witness: the no-reinsertion theorem applied at a concrete state
with a dead handle 7 and an enumeration that does not return 7. -/
theorem sample_no_reinsert_witness :
    (7 ∈ deadActs task6b ∧ 7 ∉ liveActs task6b
      ∧ enumeratedB env6c 7 = false)
    ∧ (7 ∉ liveActs (sample env6c task6b 2).1
      ∧ 7 ∈ deadActs (sample env6c task6b 2).1) :=
  ⟨⟨by decide, by decide, by decide⟩,
    sample_no_reinsert env6c task6b 2 7 (by decide) (by decide) (by decide)⟩

theorem addLibs_ok : ∀ (libs : List DyldInfo) (es : List LibEntry),
    addLibs libs = .ok es → es = libs.filterMap dyldLibEntry := by
  intro libs
  induction libs with
  | nil =>
    intro es h
    simp only [addLibs, PRes.ok.injEq] at h
    subst h
    simp
  | cons l rest ih =>
    intro es h
    cases hu : l.uuid with
    | none =>
      simp only [addLibs, hu] at h
      rw [ih es h]
      simp [List.filterMap_cons, dyldLibEntry, hu]
    | some u =>
      cases ha : l.arch with
      | none =>
        simp only [addLibs, hu, ha] at h
        rw [ih es h]
        simp [List.filterMap_cons, dyldLibEntry, hu, ha]
      | some a =>
        simp only [addLibs, hu, ha] at h
        cases hn : pathFileName l.file with
        | none => rw [hn] at h; simp at h
        | some n =>
          rw [hn] at h
          cases hrest : addLibs rest with
          | panic => rw [hrest] at h; simp at h
          | ok es2 =>
            rw [hrest] at h
            simp only [PRes.ok.injEq] at h
            subst h
            simp [List.filterMap_cons, dyldLibEntry, hu, ha, hn,
              ih es2 hrest]

theorem into_profile_own_libs (s : TaskProfiler) (pb : ProfileBuilder)
    (h : into_profile_own s = .ok pb) :
    ∃ es, addLibs s.libs = .ok es ∧ pb.libs = es := by
  unfold into_profile_own at h
  cases hn : intoProfileName s with
  | panic => rw [hn] at h; simp at h
  | ok name =>
    rw [hn] at h
    cases hes : addLibs s.libs with
    | panic => rw [hes] at h; simp at h
    | ok es =>
      rw [hes] at h
      simp only [PRes.ok.injEq] at h
      exact ⟨es, rfl, by rw [← h]; rfl⟩

theorem attachSubs_libs : ∀ (subtasks : List TaskProfiler)
    (pb pb2 : ProfileBuilder),
    attachSubs pb subtasks = .ok pb2 → pb2.libs = pb.libs := by
  intro subtasks
  induction subtasks with
  | nil =>
    intro pb pb2 h
    simp only [attachSubs, PRes.ok.injEq] at h
    rw [← h]
  | cons t rest ih =>
    intro pb pb2 h
    simp only [attachSubs] at h
    cases ho : into_profile_own t with
    | panic => rw [ho] at h; simp at h
    | ok sub =>
      rw [ho] at h
      rw [ih (pb.addSubprocess sub) pb2 h]
      cases pb
      rfl

/-- C8: whenever into_profile completes, the library entries of the assembled
profile are exactly the modules of the task state whose UUID and arch are both
known, each recorded with its file-name, full path, UUID, arch, and the
half-open range from its base address to base plus vmsize; modules lacking
either field are skipped. -/
theorem into_profile_libs (s : TaskProfiler) (subtasks : List TaskProfiler)
    (pb : ProfileBuilder) (h : into_profile s subtasks = .ok pb) :
    pb.libs = s.libs.filterMap dyldLibEntry := by
  unfold into_profile at h
  cases ho : into_profile_own s with
  | panic => rw [ho] at h; simp at h
  | ok pb1 =>
    rw [ho] at h
    obtain ⟨es, hes, hlibs⟩ := into_profile_own_libs s pb1 ho
    rw [attachSubs_libs subtasks pb1 pb h, hlibs, addLibs_ok s.libs es hes]

/-- A module with both UUID and arch known. -/
def lib1 : DyldInfo :=
  ⟨"/usr/lib/a.so", some "u1", 4096, 4096, some "x86_64", true⟩

/-- A module whose UUID is unknown. -/
def lib2 : DyldInfo :=
  ⟨"/usr/lib/b.so", none, 8192, 100, some "arm64", false⟩

/-- A dead task state holding one complete and one incomplete module. -/
def task8 : TaskProfiler :=
  ⟨1, 2, 10, 0, none, [], [], [lib1, lib2], some ["app"], none, "app"⟩

/-- C8 witness: the library theorem applied at a concrete state; only the
module with both UUID and arch appears in the assembled profile. -/
theorem into_profile_libs_witness :
    ∃ pb, into_profile task8 [] = .ok pb
      ∧ pb.libs = task8.libs.filterMap dyldLibEntry :=
  ⟨ProfileBuilder.mk 0 "app" 2 10 [] none
      [⟨"a.so", "/usr/lib/a.so", "u1", "x86_64", 4096, 8192⟩] [],
    rfl, into_profile_libs task8 [] _ rfl⟩

end Samply
